import Mathlib

/- Formal model of the Medical-app repository.

   Scope: the vitals simulation / alarm classification engine of
   src/app.py (function monitor_console_view) and the HL7 message
   exchange layer of src/hl7_simulator.py (class HL7Simulator).

   Modelling conventions:
   * Python floats are modelled as exact rationals; Python's `round(x, 1)`
     (round half to even at one decimal place) is modelled by exact
     round-half-to-even arithmetic on rationals.
   * Python's `json` module (json.loads / json.dumps) is modelled by an
     executable JSON value type together with a printer and a fueled
     recursive-descent parser, both defined below, following json.dumps's
     default separators and ensure_ascii escaping, and json.loads's
     grammar.
   * Random draws (random.uniform, random.randint, random.choice) and
     clock reads (datetime.now) are passed as explicit parameters.
   * Fallible Python code (try/except returning None) returns Option. -/

/-- The five monitored vital sign kinds: the keys of the `VITAL_SIGNS`
dict in src/app.py. -/
inductive VitalKind : Type where
  | heartRate
  | bloodPressure
  | spo2
  | respirationRate
  | temperature
deriving DecidableEq

/-- Iteration order of `VITAL_SIGNS.items()` (Python dict insertion order,
src/app.py lines 278-284). -/
def vitalKinds : List VitalKind :=
  [.heartRate, .bloodPressure, .spo2, .respirationRate, .temperature]

/-- The `VITAL_SIGNS` threshold table of src/app.py lines 278-284:
per kind, its configured (min, max, unit).  The display icon is
presentation-only and omitted. -/
def VITAL_SIGNS : VitalKind → ℚ × ℚ × String
  | .heartRate => (60, 100, "bpm")
  | .bloodPressure => (90, 140, "mmHg")
  | .spo2 => (95, 100, "%")
  | .respirationRate => (12, 20, "/min")
  | .temperature => (36.5, 37.5, "°C")

/-- Alarm severity: the two string values 'critical' / 'warning' of
src/app.py line 380. -/
inductive Severity : Type where
  | critical
  | warning
deriving DecidableEq

/-- One alarm dict as built in src/app.py lines 381-386. -/
structure Alarm where
  vital : VitalKind
  value : ℚ
  severity : Severity
  timestamp : String
deriving DecidableEq

/-- The alarm check for a single vital value against thresholds (mn, mx),
src/app.py lines 379-380: emit a severity when the value is out of range;
critical exactly when the distance from the range midpoint exceeds 10. -/
def classifyValue (mn mx v : ℚ) : Option Severity :=
  if v < mn ∨ v > mx then
    some (if |v - (mn + mx) / 2| > 10 then .critical else .warning)
  else none

/-- The alarm loop of src/app.py lines 376-386: for each vital in the
reading (in `VITAL_SIGNS` iteration order) append an alarm when its value
is out of the configured range. -/
def check_alarms (vitals : VitalKind → ℚ) (ts : String) : List Alarm :=
  vitalKinds.filterMap fun k =>
    (classifyValue (VITAL_SIGNS k).1 (VITAL_SIGNS k).2.1 (vitals k)).map
      fun sev => ⟨k, vitals k, sev, ts⟩

/-- Round half to even to the nearest integer: the rounding used by
Python's builtin `round`, on ideal (rational) values. -/
def bankersRound (q : ℚ) : ℤ :=
  if q - ⌊q⌋ < 1 / 2 then ⌊q⌋
  else if 1 / 2 < q - ⌊q⌋ then ⌊q⌋ + 1
  else if Even ⌊q⌋ then ⌊q⌋ else ⌊q⌋ + 1

/-- Python's `round(q, 1)` on ideal (rational) values. -/
def round1 (q : ℚ) : ℚ := (bankersRound (10 * q) : ℚ) / 10

/-- One vital generation step, src/app.py lines 370-373: a uniform draw
`u` from [min, max]; with 10% probability (the `perturb` outcome of
`random.random() < 0.1`) an extra uniform offset from [-5, 5]; the result
rounded to one decimal place. -/
def generateVital (u : ℚ) (perturb : Bool) (offset : ℚ) : ℚ :=
  round1 (if perturb then u + offset else u)

/-- Per-bed state held in `st.session_state.patient_data[bed_id]`,
src/app.py lines 346-351. -/
structure PatientData where
  vitals : List (VitalKind × ℚ)
  alarms : List Alarm
  last_sync : Option String
  offline : Bool
deriving DecidableEq

/-- Initial per-bed state, src/app.py lines 346-351. -/
def initPatientData : PatientData :=
  { vitals := [], alarms := [], last_sync := none, offline := false }

/-- The Sync Data action, src/app.py lines 436-437: record the formatted
current time in `last_sync`. -/
def syncData (p : PatientData) (now : String) : PatientData :=
  { p with last_sync := some now }

/-- The Toggle Offline Mode action, src/app.py line 365. -/
def toggleOffline (p : PatientData) : PatientData :=
  { p with offline := !p.offline }

/- ===== Model of Python's json module (json.loads / json.dumps) ===== -/

mutual
/-- A JSON value as produced by Python's `json.loads`: null, booleans,
integers, floats, strings, arrays and objects.  An object is modelled as
its ordered field list; `json.loads` builds a Python dict, which carries
the same information for the unique-key payloads of this repository. -/
inductive JValue : Type where
  | jnull : JValue
  | jbool (b : Bool) : JValue
  | jint (n : ℤ) : JValue
  | jfloat (q : ℚ) : JValue
  | jstr (s : String) : JValue
  | jarr (xs : JArr) : JValue
  | jobj (fs : JObj) : JValue
deriving DecidableEq
/-- A JSON array's element list. -/
inductive JArr : Type where
  | nil : JArr
  | cons (v : JValue) (rest : JArr) : JArr
deriving DecidableEq
/-- A JSON object's field list. -/
inductive JObj : Type where
  | nil : JObj
  | cons (k : String) (v : JValue) (rest : JObj) : JObj
deriving DecidableEq
end

/-- The decimal digit character for `n % 10`. -/
def digitChar (n : ℕ) : Char := Char.ofNat (48 + n % 10)

/-- Decimal digits of a natural number, most significant first, with
explicit fuel (`natDigits` supplies sufficient fuel). -/
def natDigitsAux : ℕ → ℕ → List Char
  | 0, _ => []
  | f + 1, n =>
    if n < 10 then [digitChar n]
    else natDigitsAux f (n / 10) ++ [digitChar (n % 10)]

/-- Decimal digits of a natural number, most significant first. -/
def natDigits (n : ℕ) : List Char := natDigitsAux (n + 1) n

/-- Decimal representation of an integer (Python `str` on int, also
`json.dumps` on int). -/
def intRepr (n : ℤ) : List Char :=
  if n < 0 then '-' :: natDigits n.natAbs else natDigits n.natAbs

/-- Lowercase hex digit for `n < 16`, as Python's `format(n, '04x')`. -/
def hexDigitChar (n : ℕ) : Char :=
  if n < 10 then Char.ofNat (48 + n) else Char.ofNat (87 + n)

/-- Four lowercase hex digits of `n % 0x10000`. -/
def toHex4 (n : ℕ) : List Char :=
  [hexDigitChar (n / 4096 % 16), hexDigitChar (n / 256 % 16),
   hexDigitChar (n / 16 % 16), hexDigitChar (n % 16)]

/-- Escape one character the way Python's `json.dumps` does with its
default `ensure_ascii=True`: short escapes for quote, backslash and the
five named controls; every other character outside printable ASCII
becomes `\uXXXX` (a surrogate pair for astral code points). -/
def escapeChar (c : Char) : List Char :=
  if c = '"' then ['\\', '"']
  else if c = '\\' then ['\\', '\\']
  else if c = '\x08' then ['\\', 'b']
  else if c = '\t' then ['\\', 't']
  else if c = '\n' then ['\\', 'n']
  else if c = '\x0c' then ['\\', 'f']
  else if c = '\x0d' then ['\\', 'r']
  else if 0x20 ≤ c.toNat ∧ c.toNat ≤ 0x7e then [c]
  else if c.toNat < 0x10000 then '\\' :: 'u' :: toHex4 c.toNat
  else
    ('\\' :: 'u' :: toHex4 (0xd800 + (c.toNat - 0x10000) / 0x400)) ++
      ('\\' :: 'u' :: toHex4 (0xdc00 + (c.toNat - 0x10000) % 0x400))

/-- Escape a character list (`escapeChar` on each character). -/
def escapeList : List Char → List Char
  | [] => []
  | c :: cs => escapeChar c ++ escapeList cs

/-- A JSON string literal for `s`: quotes around the escaped body. -/
def escapeString (s : String) : List Char :=
  '"' :: escapeList s.data ++ ['"']

mutual
/-- Python `json.dumps` (default separators `", "` / `": "`,
`ensure_ascii=True`), as a character list.  Floats never occur in the
messages this repository dumps, and every dump theorem below assumes
`noFloatV`; the `jfloat` arm is a placeholder keeping the printer total
(Python's float repr is out of scope). -/
def jdumpV : JValue → List Char
  | .jnull => "null".data
  | .jbool true => "true".data
  | .jbool false => "false".data
  | .jint n => intRepr n
  | .jfloat _ => "0.0".data
  | .jstr s => escapeString s
  | .jarr .nil => "[]".data
  | .jarr (.cons v rest) => '[' :: (jdumpV v ++ jdumpA rest) ++ [']']
  | .jobj .nil => ['\x7b', '\x7d']
  | .jobj (.cons k v rest) =>
    '\x7b' :: (escapeString k ++ ':' :: ' ' :: jdumpV v ++ jdumpO rest) ++ ['\x7d']
/-- Second and later array elements, each preceded by `", "`. -/
def jdumpA : JArr → List Char
  | .nil => []
  | .cons v rest => ',' :: ' ' :: jdumpV v ++ jdumpA rest
/-- Second and later object fields, each preceded by `", "`. -/
def jdumpO : JObj → List Char
  | .nil => []
  | .cons k v rest =>
    ',' :: ' ' :: escapeString k ++ ':' :: ' ' :: jdumpV v ++ jdumpO rest
end

mutual
/-- No float occurs in the value (see `jdumpV` on `jfloat`). -/
def noFloatV : JValue → Bool
  | .jfloat _ => false
  | .jarr xs => noFloatA xs
  | .jobj fs => noFloatO fs
  | _ => true
def noFloatA : JArr → Bool
  | .nil => true
  | .cons v r => noFloatV v && noFloatA r
def noFloatO : JObj → Bool
  | .nil => true
  | .cons _ v r => noFloatV v && noFloatO r
end

mutual
/-- Parser fuel sufficient for a value (one unit per nesting step). -/
def fuelV : JValue → ℕ
  | .jnull => 1
  | .jbool _ => 1
  | .jint _ => 1
  | .jfloat _ => 1
  | .jstr _ => 1
  | .jarr xs => 1 + fuelA xs
  | .jobj fs => 1 + fuelO fs
def fuelA : JArr → ℕ
  | .nil => 0
  | .cons v r => 1 + max (fuelV v) (fuelA r)
def fuelO : JObj → ℕ
  | .nil => 0
  | .cons _ v r => 1 + max (fuelV v) (fuelO r)
end

/-- JSON insignificant whitespace (Python json's `[ \t\n\r]*`). -/
def isJWs (c : Char) : Bool := c = ' ' || c = '\t' || c = '\n' || c = '\r'

/-- Drop leading JSON whitespace. -/
def skipWs : List Char → List Char
  | [] => []
  | c :: cs => if isJWs c then skipWs cs else c :: cs

/-- Value of a hex digit character (json's `\uXXXX` digits). -/
def hexVal (c : Char) : Option ℕ :=
  if '0' ≤ c ∧ c ≤ '9' then some (c.toNat - 48)
  else if 'a' ≤ c ∧ c ≤ 'f' then some (c.toNat - 87)
  else if 'A' ≤ c ∧ c ≤ 'F' then some (c.toNat - 55)
  else none

/-- Read exactly four hex digits. -/
def parseHex4 : List Char → Option (ℕ × List Char)
  | c1 :: c2 :: c3 :: c4 :: rest =>
    match hexVal c1, hexVal c2, hexVal c3, hexVal c4 with
    | some a, some b, some c, some d => some (4096 * a + 256 * b + 16 * c + d, rest)
    | _, _, _, _ => none
  | _ => none

/-- The short backslash escapes accepted by Python's json string scanner. -/
def escShort (e : Char) : Option Char :=
  if e = '"' then some '"'
  else if e = '\\' then some '\\'
  else if e = '/' then some '/'
  else if e = 'b' then some '\x08'
  else if e = 'f' then some '\x0c'
  else if e = 'n' then some '\n'
  else if e = 'r' then some '\x0d'
  else if e = 't' then some '\t'
  else none

/-- JSON string body scanner (Python `py_scanstring` with `strict=True`),
entered after the opening quote; returns the decoded characters and the
input after the closing quote.  Surrogate-pair escapes are combined as
Python does; a lone surrogate escape is rejected here (Python would build
a lone-surrogate `str`, which Lean's `Char` cannot hold; none occurs in
this repository's payloads).  One unit of fuel per decoded character. -/
def parseStrBody : ℕ → List Char → Option (List Char × List Char)
  | 0, _ => none
  | _ + 1, [] => none
  | f + 1, c :: cs =>
    if c = '"' then some ([], cs)
    else if c = '\\' then
      match cs with
      | [] => none
      | e :: cs2 =>
        if e = 'u' then
          match parseHex4 cs2 with
          | none => none
          | some (n, cs3) =>
            if n < 0xd800 ∨ 0xe000 ≤ n then
              (parseStrBody f cs3).map fun p => (Char.ofNat n :: p.1, p.2)
            else if n < 0xdc00 then
              match cs3 with
              | b1 :: b2 :: cs4 =>
                if b1 = '\\' ∧ b2 = 'u' then
                  match parseHex4 cs4 with
                  | some (m, cs5) =>
                    if 0xdc00 ≤ m ∧ m < 0xe000 then
                      (parseStrBody f cs5).map fun p =>
                        (Char.ofNat (0x10000 + (n - 0xd800) * 0x400 + (m - 0xdc00)) :: p.1, p.2)
                    else none
                  | none => none
                else none
              | _ => none
            else none
        else
          match escShort e with
          | some d => (parseStrBody f cs2).map fun p => (d :: p.1, p.2)
          | none => none
    else if c.toNat < 0x20 then none
    else (parseStrBody f cs).map fun p => (c :: p.1, p.2)

/-- Split off a maximal run of decimal digits. -/
def takeDigits : List Char → List Char × List Char
  | [] => ([], [])
  | c :: cs =>
    if c.isDigit then
      let p := takeDigits cs
      (c :: p.1, p.2)
    else ([], c :: cs)

/-- Numeric value of a digit run (most significant first). -/
def digitsToNat (l : List Char) : ℕ :=
  l.foldl (fun a c => 10 * a + (c.toNat - 48)) 0

/-- Optional fraction part `.digits+` of a JSON number; a dot not
followed by a digit is left unconsumed (Python's NUMBER_RE). -/
def parseFrac : List Char → Option (List Char) × List Char
  | d :: c :: t =>
    if d = '.' ∧ c.isDigit then
      let p := takeDigits (c :: t)
      (some p.1, p.2)
    else (none, d :: c :: t)
  | cs => (none, cs)

/-- Optional exponent part `[eE][+-]?digits+` of a JSON number; an
exponent marker without digits is left unconsumed (Python's NUMBER_RE). -/
def parseExp : List Char → Option (Bool × List Char) × List Char
  | [] => (none, [])
  | e :: rest =>
    if e = 'e' || e = 'E' then
      match rest with
      | s :: c :: t =>
        if (s = '+' || s = '-') && c.isDigit then
          let p := takeDigits (c :: t)
          (some (s = '-', p.1), p.2)
        else if s.isDigit then
          let p := takeDigits (s :: c :: t)
          (some (false, p.1), p.2)
        else (none, e :: rest)
      | [s] =>
        if s.isDigit then (some (false, [s]), [])
        else (none, e :: rest)
      | [] => (none, e :: rest)
    else (none, e :: rest)

/-- The rational value of a parsed number. -/
def numVal (neg : Bool) (ip : ℕ) (fds : List Char)
    (ex : Option (Bool × List Char)) : ℚ :=
  let base : ℚ := (ip : ℚ) + (digitsToNat fds : ℚ) / (10 : ℚ) ^ fds.length
  let scal : ℚ :=
    match ex with
    | none => 1
    | some (eneg, eds) =>
      if eneg then (1 : ℚ) / (10 : ℚ) ^ digitsToNat eds
      else (10 : ℚ) ^ digitsToNat eds
  (if neg then -1 else 1) * base * scal

/-- JSON number scanner following Python json's NUMBER_RE
`(-?(?:0|[1-9]\d*))(\.\d+)?([eE][-+]?\d+)?`, after the optional sign:
an integer unless a fraction or exponent part is present, in which case
a float. -/
def parseNumBody (neg : Bool) : List Char → Option (JValue × List Char)
  | [] => none
  | c :: t =>
    if c.isDigit then
      let p1 : ℕ × List Char :=
        if c = '0' then (0, t)
        else
          let p := takeDigits (c :: t)
          (digitsToNat p.1, p.2)
      let p2 := parseFrac p1.2
      let p3 := parseExp p2.2
      match p2.1, p3.1 with
      | none, none =>
        some (.jint (if neg then -(p1.1 : ℤ) else (p1.1 : ℤ)), p3.2)
      | _, _ => some (.jfloat (numVal neg p1.1 (p2.1.getD []) p3.1), p3.2)
    else none

/-- Sign dispatch of the number scanner. -/
def parseNum : List Char → Option (JValue × List Char)
  | [] => none
  | c :: t => if c = '-' then parseNumBody true t else parseNumBody false (c :: t)

mutual
/-- JSON document scanner (Python json's `scan_once`): one value starting
after optional whitespace.  `NaN` / `Infinity` constants are out of scope
(none occurs in this development's inputs). -/
def parseV : ℕ → List Char → Option (JValue × List Char)
  | 0, _ => none
  | f + 1, cs =>
    match skipWs cs with
    | [] => none
    | c :: r =>
      if c = '\x7b' then
        match skipWs r with
        | c2 :: r2 =>
          if c2 = '\x7d' then some (.jobj .nil, r2)
          else (parseMems f r).map fun p => (.jobj p.1, p.2)
        | [] => (parseMems f r).map fun p => (.jobj p.1, p.2)
      else if c = '[' then
        match skipWs r with
        | c2 :: r2 =>
          if c2 = ']' then some (.jarr .nil, r2)
          else (parseElems f r).map fun p => (.jarr p.1, p.2)
        | [] => (parseElems f r).map fun p => (.jarr p.1, p.2)
      else if c = '"' then
        (parseStrBody (r.length + 1) r).map fun p => (.jstr (String.mk p.1), p.2)
      else if c = 'n' then
        match r with
        | 'u' :: 'l' :: 'l' :: r2 => some (.jnull, r2)
        | _ => none
      else if c = 't' then
        match r with
        | 'r' :: 'u' :: 'e' :: r2 => some (.jbool true, r2)
        | _ => none
      else if c = 'f' then
        match r with
        | 'a' :: 'l' :: 's' :: 'e' :: r2 => some (.jbool false, r2)
        | _ => none
      else parseNum (c :: r)
/-- Array elements from the first element on (after a non-`]` lookahead),
up to and including the closing bracket. -/
def parseElems : ℕ → List Char → Option (JArr × List Char)
  | 0, _ => none
  | f + 1, cs =>
    match parseV f cs with
    | none => none
    | some (v, rest) =>
      match skipWs rest with
      | c :: r2 =>
        if c = ',' then (parseElems f r2).map fun p => (.cons v p.1, p.2)
        else if c = ']' then some (.cons v .nil, r2)
        else none
      | [] => none
/-- Object members from the first key on (after a non-`}` lookahead), up
to and including the closing brace. -/
def parseMems : ℕ → List Char → Option (JObj × List Char)
  | 0, _ => none
  | f + 1, cs =>
    match skipWs cs with
    | c :: r =>
      if c = '"' then
        match parseStrBody (r.length + 1) r with
        | none => none
        | some (k, rest) =>
          match skipWs rest with
          | c2 :: r2 =>
            if c2 = ':' then
              match parseV f r2 with
              | none => none
              | some (v, rest2) =>
                match skipWs rest2 with
                | c3 :: r3 =>
                  if c3 = ',' then
                    (parseMems f r3).map fun p => (.cons (String.mk k) v p.1, p.2)
                  else if c3 = '\x7d' then some (.cons (String.mk k) v .nil, r3)
                  else none
                | [] => none
            else none
          | [] => none
      else none
    | [] => none
end

/-- Python `json.loads`: one JSON document with surrounding whitespace,
the whole input consumed.  Fuel `length + 1` suffices for every document
(each nesting step consumes at least one character of the input; see
`fuel_le_dump` below). -/
def jparse (s : String) : Option JValue :=
  match parseV (s.data.length + 1) s.data with
  | some (v, rest) => if skipWs rest = [] then some v else none
  | none => none

/-- Python `json.dumps` as a `String`. -/
def jdumps (v : JValue) : String := String.mk (jdumpV v)

/-- Python truthiness (`bool(x)`) of a decoded JSON value: None, False,
0, 0.0, empty string, empty list and empty dict are falsy. -/
def jtruthy : JValue → Bool
  | .jnull => false
  | .jbool b => b
  | .jint n => n != 0
  | .jfloat q => q != 0
  | .jstr s => s != ""
  | .jarr .nil => false
  | .jarr (.cons _ _) => true
  | .jobj .nil => false
  | .jobj (.cons _ _ _) => true

/- ===== Model of src/hl7_simulator.py (class HL7Simulator) ===== -/

/-- The random draws and clock reads consumed by one
`generate_patient_data` call (src/hl7_simulator.py lines 11-50), made
explicit: `random.randint(1000, 9999)` for the message control id and
the visit number, `random.choice(["M", "F"])` for gender (true = "M"),
`random.uniform` draws for the three observation values, and the five
`datetime.now()` readings. -/
structure GenDraws where
  ctrlId : ℕ
  gender : Bool
  visitNum : ℕ
  hr : ℚ
  bp : ℚ
  spo2 : ℚ
  mshTs : String
  admDate : String
  obxTs1 : String
  obxTs2 : String
  obxTs3 : String
deriving DecidableEq

/-- Python's fixed-point format `f"{q:.1f}"` on ideal (rational) values:
round half to even at one decimal place, then print with exactly one
digit after the dot.  (Used on the nonnegative uniform draws of
src/hl7_simulator.py; the sign Python gives a negative value rounding to
zero is not modelled.) -/
def format1 (q : ℚ) : String :=
  let n := bankersRound (10 * q)
  String.mk ((if n < 0 then ['-'] else []) ++
    natDigits (n.natAbs / 10) ++ '.' :: [digitChar (n.natAbs % 10)])

/-- One OBX observation segment of `generate_patient_data`
(src/hl7_simulator.py lines 30-49). -/
def obxSeg (oid val units ts : String) : JValue :=
  .jobj (.cons "observation_id" (.jstr oid)
    (.cons "value" (.jstr val)
    (.cons "units" (.jstr units)
    (.cons "timestamp" (.jstr ts) .nil))))

/-- `HL7Simulator.generate_patient_data` (src/hl7_simulator.py lines
11-50), with its random draws and clock reads as an explicit
`GenDraws`. -/
def generate_patient_data (patient_id : String) (d : GenDraws) : JValue :=
  .jobj (.cons "MSH" (.jobj (.cons "message_type" (.jstr "ORU^R01")
      (.cons "message_control_id"
        (.jstr ("MSG" ++ String.mk (natDigits d.ctrlId)))
      (.cons "timestamp" (.jstr d.mshTs) .nil))))
    (.cons "PID" (.jobj (.cons "patient_id" (.jstr patient_id)
      (.cons "name" (.jstr ("Patient_" ++ patient_id))
      (.cons "dob" (.jstr "19700101")
      (.cons "gender" (.jstr (if d.gender then "M" else "F")) .nil)))))
    (.cons "PV1" (.jobj (.cons "visit_number"
        (.jstr ("VN" ++ String.mk (natDigits d.visitNum)))
      (.cons "admission_date" (.jstr d.admDate)
      (.cons "discharge_date" .jnull .nil))))
    (.cons "OBX" (.jarr
      (.cons (obxSeg "8867-4" (format1 d.hr) "bpm" d.obxTs1)
      (.cons (obxSeg "85354-9" (format1 d.bp) "mmHg" d.obxTs2)
      (.cons (obxSeg "59408-5" (format1 d.spo2) "%" d.obxTs3) .nil))))
    .nil))))

/-- `HL7Simulator.parse_hl7_message` (src/hl7_simulator.py lines 52-57):
`json.loads` under try/except; `none` is the except branch's None. -/
def parse_hl7_message (message : String) : Option JValue := jparse message

/-- `HL7Simulator.generate_hl7_message` (src/hl7_simulator.py lines
59-62): `json.dumps(generate_patient_data(patient_id))`. -/
def generate_hl7_message (patient_id : String) (d : GenDraws) : String :=
  jdumps (generate_patient_data patient_id d)

/-- Message status strings 'pending' / 'processed' of
src/hl7_simulator.py lines 69 and 79. -/
inductive MsgStatus : Type where
  | pending
  | processed
deriving DecidableEq

/-- One entry of `message_queue` (src/hl7_simulator.py lines 66-70): raw
message, enqueue timestamp, status, and the parsed payload attached once
processed. -/
structure QueuedMessage where
  message : String
  timestamp : String
  status : MsgStatus
  parsed_data : Option JValue
deriving DecidableEq

/-- `HL7Simulator.queue_message` (src/hl7_simulator.py lines 64-70). -/
def queue_message (queue : List QueuedMessage) (message ts : String) :
    List QueuedMessage :=
  queue ++ [{ message := message, timestamp := ts, status := .pending,
              parsed_data := none }]

/-- The `if parsed:` test of src/hl7_simulator.py line 78: Python
truthiness of the parse result, where the except branch's None and a
parsed JSON null are the same falsy Python None. -/
def parsedTruthy : Option JValue → Bool
  | none => false
  | some v => jtruthy v

/-- One message's treatment inside the `process_queue` loop
(src/hl7_simulator.py lines 75-81): a pending message whose payload
parses to a truthy value is marked processed with the parsed payload
attached, and is also emitted into the returned list. -/
def processMsg (m : QueuedMessage) : QueuedMessage × Option QueuedMessage :=
  if m.status = .pending then
    let parsed := parse_hl7_message m.message
    if parsedTruthy parsed then
      let m' : QueuedMessage :=
        { m with status := .processed, parsed_data := parsed }
      (m', some m')
    else (m, none)
  else (m, none)

/-- `HL7Simulator.process_queue` (src/hl7_simulator.py lines 72-82):
walk the queue applying `processMsg`; returns the updated queue state
together with the list the Python method returns. -/
def process_queue : List QueuedMessage → List QueuedMessage × List QueuedMessage
  | [] => ([], [])
  | m :: rest =>
    let p := processMsg m
    let r := process_queue rest
    (p.1 :: r.1, match p.2 with | some x => x :: r.2 | none => r.2)

/-- The queue-facing operations of `HL7Simulator`. -/
inductive QOp : Type where
  | enqueue (message ts : String)
  | processPending
deriving DecidableEq

/-- Apply one queue operation to a queue state. -/
def applyQOp (queue : List QueuedMessage) : QOp → List QueuedMessage
  | .enqueue message ts => queue_message queue message ts
  | .processPending => (process_queue queue).1

/-- Run a sequence of queue operations from the empty queue
(`__init__`'s `self.message_queue = []`, src/hl7_simulator.py line 9). -/
def runQOps (ops : List QOp) : List QueuedMessage :=
  ops.foldl applyQOp []

/-- Iterate `process_queue`'s state update n times. -/
def processIter : ℕ → List QueuedMessage → List QueuedMessage
  | 0, q => q
  | n + 1, q => processIter n (process_queue q).1

/-- Python `str.lower` on the characters of a string.  `Char.toLower`
lowercases ASCII only; for the comparisons against "json" and "hl7"
below this agrees with Python's full Unicode lowercasing. -/
def lowerStr (s : String) : String := String.mk (s.data.map Char.toLower)

/-- Newline followed by `n` spaces of indentation. -/
def nlInd (n : ℕ) : List Char := '\n' :: List.replicate n ' '

mutual
/-- Python `json.dumps(..., indent=2)` (the json branch of
`export_patient_data`): each container item on its own line, indented
two spaces deeper; separators `","` and `": "`. -/
def jdumpIndV : ℕ → JValue → List Char
  | _, .jnull => "null".data
  | _, .jbool true => "true".data
  | _, .jbool false => "false".data
  | _, .jint n => intRepr n
  | _, .jfloat _ => "0.0".data
  | _, .jstr s => escapeString s
  | _, .jarr .nil => "[]".data
  | ind, .jarr (.cons v rest) =>
    '[' :: (nlInd (ind + 2) ++ jdumpIndV (ind + 2) v ++
      jdumpIndA (ind + 2) rest ++ nlInd ind) ++ [']']
  | _, .jobj .nil => ['\x7b', '\x7d']
  | ind, .jobj (.cons k v rest) =>
    '\x7b' :: (nlInd (ind + 2) ++ escapeString k ++ ':' :: ' ' ::
      jdumpIndV (ind + 2) v ++ jdumpIndO (ind + 2) rest ++ nlInd ind) ++ ['\x7d']
/-- Second and later array elements of the indented dump. -/
def jdumpIndA : ℕ → JArr → List Char
  | _, .nil => []
  | ind, .cons v rest =>
    ',' :: nlInd ind ++ jdumpIndV ind v ++ jdumpIndA ind rest
/-- Second and later object fields of the indented dump. -/
def jdumpIndO : ℕ → JObj → List Char
  | _, .nil => []
  | ind, .cons k v rest =>
    ',' :: nlInd ind ++ escapeString k ++ ':' :: ' ' ::
      jdumpIndV ind v ++ jdumpIndO ind rest
end

/-- `HL7Simulator.export_patient_data` (src/hl7_simulator.py lines
84-92): `json.dumps(data, indent=2)` for format "json"; the fixed MSH
header line for format "hl7" (`nowCompact` is the
`datetime.now().strftime('%Y%m%d%H%M%S')` clock read); otherwise the
empty string. -/
def export_patient_data (patient_id : String) (d : GenDraws)
    (nowCompact : String) (format : String) : String :=
  if lowerStr format = "json" then
    String.mk (jdumpIndV 0 (generate_patient_data patient_id d))
  else if lowerStr format = "hl7" then
    "MSH|^~\\&|SkanRay|HOSPITAL|HL7|HOSPITAL|" ++ nowCompact ++
      "||ORU^R01|MSG12345|P|2.5"
  else ""

/-- Modelled from the spec: the "required header/subject fields" a
decode is said to validate — presence of the "MSH" header block and the
"PID" subject block (src/hl7_simulator.py's `parse_hl7_message` has no
such check; this definition states what the spec asks for, for
comparison). -/
def specRequiredFieldsPresent : JValue → Bool
  | .jobj fs => hasKey fs "MSH" && hasKey fs "PID"
  | _ => false
where
  hasKey : JObj → String → Bool
    | .nil, _ => false
    | .cons k _ rest, key => k = key || hasKey rest key


/-- First-match lookup in an object's field list (Python dict access;
for the unique-key payloads of this development, first and last match
coincide). -/
def jlookup : JObj → String → Option JValue
  | .nil, _ => none
  | .cons k v rest, key => if k = key then some v else jlookup rest key

/-- The element list of a JSON array value. -/
def jarrToList : JArr → List JValue
  | .nil => []
  | .cons v r => v :: jarrToList r

/-- The subject identity of a message: its PID.patient_id field. -/
def subjectIdOf : JValue → Option JValue
  | .jobj fs =>
    match jlookup fs "PID" with
    | some (.jobj pid) => jlookup pid "patient_id"
    | _ => none
  | _ => none

/-- The message control id of a message: its MSH.message_control_id
field. -/
def controlIdOf : JValue → Option JValue
  | .jobj fs =>
    match jlookup fs "MSH" with
    | some (.jobj msh) => jlookup msh "message_control_id"
    | _ => none
  | _ => none

/-- The (observation_id, value) pair of one OBX segment. -/
def obsPair : JValue → Option (String × String)
  | .jobj fs =>
    match jlookup fs "observation_id", jlookup fs "value" with
    | some (.jstr oid), some (.jstr val) => some (oid, val)
    | _, _ => none
  | _ => none

/-- The kind-to-value mapping carried by a message's OBX segments. -/
def obxPairsOf : JValue → List (String × String)
  | .jobj fs =>
    match jlookup fs "OBX" with
    | some (.jarr xs) => (jarrToList xs).filterMap obsPair
    | _ => []
  | _ => []

/-- No digit, dot or exponent marker at the head: a number token ending
right before `rest` cannot be extended into `rest` (the boundary of a
Python NUMBER_RE match). -/
def numSafe : List Char → Bool
  | [] => true
  | c :: _ => !(c.isDigit || c = '.' || c = 'e' || c = 'E')

/- ===== Theorems ===== -/

section RoundingLemmas

theorem floor_le_bankersRound (q : ℚ) : ⌊q⌋ ≤ bankersRound q := by
  unfold bankersRound
  split_ifs <;> omega

theorem bankersRound_le_ceil (q : ℚ) : bankersRound q ≤ ⌈q⌉ := by
  unfold bankersRound
  have hfc : ⌊q⌋ ≤ ⌈q⌉ := Int.floor_le_ceil q
  have hq : (⌊q⌋ : ℚ) ≤ q := Int.floor_le q
  have hc : q ≤ (⌈q⌉ : ℚ) := Int.le_ceil q
  split_ifs with h1 h2 h3
  · exact hfc
  · -- q - ⌊q⌋ > 1/2, so q is not an integer and ⌈q⌉ = ⌊q⌋ + 1
    have : (⌊q⌋ : ℚ) < q := by linarith
    have hlt : ⌊q⌋ < ⌈q⌉ := by
      have : (⌊q⌋ : ℚ) < (⌈q⌉ : ℚ) := lt_of_lt_of_le this hc
      exact_mod_cast this
    omega
  · exact hfc
  · have h12 : q - ⌊q⌋ = 1 / 2 := by linarith
    have : (⌊q⌋ : ℚ) < q := by linarith
    have hlt : ⌊q⌋ < ⌈q⌉ := by
      have : (⌊q⌋ : ℚ) < (⌈q⌉ : ℚ) := lt_of_lt_of_le this hc
      exact_mod_cast this
    omega

theorem le_round1 (a : ℤ) (q : ℚ) (h : (a : ℚ) / 10 ≤ q) :
    (a : ℚ) / 10 ≤ round1 q := by
  have h10 : (a : ℚ) ≤ 10 * q := by linarith
  have hf : a ≤ ⌊10 * q⌋ := Int.le_floor.mpr h10
  have hb : a ≤ bankersRound (10 * q) := le_trans hf (floor_le_bankersRound _)
  have : (a : ℚ) ≤ (bankersRound (10 * q) : ℚ) := by exact_mod_cast hb
  unfold round1
  linarith

theorem round1_le (a : ℤ) (q : ℚ) (h : q ≤ (a : ℚ) / 10) :
    round1 q ≤ (a : ℚ) / 10 := by
  have h10 : 10 * q ≤ (a : ℚ) := by linarith
  have hc : ⌈10 * q⌉ ≤ a := Int.ceil_le.mpr h10
  have hb : bankersRound (10 * q) ≤ a := le_trans (bankersRound_le_ceil _) hc
  have : (bankersRound (10 * q) : ℚ) ≤ (a : ℚ) := by exact_mod_cast hb
  unfold round1
  linarith

/-- `round1` maps a value in an interval whose endpoints are exact
multiples of 1/10 back into that interval. -/
theorem round1_mem_of_decimal (lo hi q : ℚ) (a b : ℤ) (ha : (a : ℚ) = 10 * lo)
    (hb : (b : ℚ) = 10 * hi) (h1 : lo ≤ q) (h2 : q ≤ hi) :
    lo ≤ round1 q ∧ round1 q ≤ hi := by
  constructor
  · have h10 : (a : ℚ) ≤ 10 * q := by rw [ha]; linarith
    have hf : a ≤ ⌊10 * q⌋ := Int.le_floor.mpr h10
    have hbr : a ≤ bankersRound (10 * q) := le_trans hf (floor_le_bankersRound _)
    have hcast : (a : ℚ) ≤ (bankersRound (10 * q) : ℚ) := by exact_mod_cast hbr
    unfold round1
    rw [ha] at hcast
    linarith
  · have h10 : 10 * q ≤ (b : ℚ) := by rw [hb]; linarith
    have hc : ⌈10 * q⌉ ≤ b := Int.ceil_le.mpr h10
    have hbr : bankersRound (10 * q) ≤ b := le_trans (bankersRound_le_ceil _) hc
    have hcast : (bankersRound (10 * q) : ℚ) ≤ (b : ℚ) := by exact_mod_cast hbr
    unfold round1
    rw [hb] at hcast
    linarith

end RoundingLemmas

/-- C1: Alarm classification is exact.  For every vital kind with
configured range (mn, mx) and every value v: the per-value check emits a
severity iff v < mn or v > mx; the emitted severity is critical iff
|v - (mn+mx)/2| > 10 and warning otherwise; and at the reading level an
alarm for kind k (carrying the reading's value for k and that severity)
is in the produced alarm list iff the reading's value for k is out of
range.  No alarm is emitted for in-range values. -/
theorem alarm_classification_exact (k : VitalKind) (v : ℚ)
    (vitals : VitalKind → ℚ) (ts : String) :
    ((classifyValue (VITAL_SIGNS k).1 (VITAL_SIGNS k).2.1 v).isSome ↔
       (v < (VITAL_SIGNS k).1 ∨ v > (VITAL_SIGNS k).2.1)) ∧
    (classifyValue (VITAL_SIGNS k).1 (VITAL_SIGNS k).2.1 v = some .critical ↔
       ((v < (VITAL_SIGNS k).1 ∨ v > (VITAL_SIGNS k).2.1) ∧
        |v - ((VITAL_SIGNS k).1 + (VITAL_SIGNS k).2.1) / 2| > 10)) ∧
    (classifyValue (VITAL_SIGNS k).1 (VITAL_SIGNS k).2.1 v = some .warning ↔
       ((v < (VITAL_SIGNS k).1 ∨ v > (VITAL_SIGNS k).2.1) ∧
        ¬|v - ((VITAL_SIGNS k).1 + (VITAL_SIGNS k).2.1) / 2| > 10)) ∧
    ((∃ a, a ∈ check_alarms vitals ts ∧ a.vital = k ∧ a.value = vitals k ∧
        classifyValue (VITAL_SIGNS k).1 (VITAL_SIGNS k).2.1 (vitals k) =
          some a.severity) ↔
       (vitals k < (VITAL_SIGNS k).1 ∨ vitals k > (VITAL_SIGNS k).2.1)) := by
  refine ⟨?_, ?_, ?_, ?_⟩
  · unfold classifyValue
    split_ifs <;> simp_all
  · unfold classifyValue
    split_ifs <;> simp_all
  · unfold classifyValue
    split_ifs <;> simp_all
  · constructor
    · rintro ⟨a, ha, hk, hv, hs⟩
      by_contra hcon
      rw [classifyValue, if_neg hcon] at hs
      exact Option.noConfusion hs
    · intro hout
      have hsome : (classifyValue (VITAL_SIGNS k).1 (VITAL_SIGNS k).2.1
          (vitals k)).isSome := by
        unfold classifyValue
        rw [if_pos hout]
        rfl
      obtain ⟨sev, hsev⟩ := Option.isSome_iff_exists.mp hsome
      refine ⟨⟨k, vitals k, sev, ts⟩, ?_, rfl, rfl, hsev⟩
      unfold check_alarms
      have hkmem : k ∈ vitalKinds := by cases k <;> simp [vitalKinds]
      exact List.mem_filterMap.mpr ⟨k, hkmem, by rw [hsev]; rfl⟩

/-- C5: Generator range bound.  For every configured vital kind and every
randomness outcome (a uniform draw u from [min, max], a perturbation
coin, and a uniform offset from [-5, 5]), the generated value lies in
[min - 5, max + 5] after rounding to one decimal place, and when the
perturbation branch is not taken it lies in [min, max]. -/
theorem generator_range_bound (k : VitalKind) (u offset : ℚ) (perturb : Bool)
    (hu1 : (VITAL_SIGNS k).1 ≤ u) (hu2 : u ≤ (VITAL_SIGNS k).2.1)
    (ho1 : -5 ≤ offset) (ho2 : offset ≤ 5) :
    ((VITAL_SIGNS k).1 - 5 ≤ generateVital u perturb offset ∧
      generateVital u perturb offset ≤ (VITAL_SIGNS k).2.1 + 5) ∧
    (perturb = false →
      (VITAL_SIGNS k).1 ≤ generateVital u perturb offset ∧
        generateVital u perturb offset ≤ (VITAL_SIGNS k).2.1) := by
  have hdmn : ∃ a : ℤ, (a : ℚ) = 10 * (VITAL_SIGNS k).1 := by
    cases k
    · exact ⟨600, by norm_num [VITAL_SIGNS]⟩
    · exact ⟨900, by norm_num [VITAL_SIGNS]⟩
    · exact ⟨950, by norm_num [VITAL_SIGNS]⟩
    · exact ⟨120, by norm_num [VITAL_SIGNS]⟩
    · exact ⟨365, by norm_num [VITAL_SIGNS]⟩
  have hdmx : ∃ b : ℤ, (b : ℚ) = 10 * (VITAL_SIGNS k).2.1 := by
    cases k
    · exact ⟨1000, by norm_num [VITAL_SIGNS]⟩
    · exact ⟨1400, by norm_num [VITAL_SIGNS]⟩
    · exact ⟨1000, by norm_num [VITAL_SIGNS]⟩
    · exact ⟨200, by norm_num [VITAL_SIGNS]⟩
    · exact ⟨375, by norm_num [VITAL_SIGNS]⟩
  obtain ⟨a, ha⟩ := hdmn
  obtain ⟨b, hb⟩ := hdmx
  constructor
  · have hval1 : (VITAL_SIGNS k).1 - 5 ≤ (if perturb then u + offset else u) := by
      cases perturb <;> simp <;> linarith
    have hval2 : (if perturb then u + offset else u) ≤ (VITAL_SIGNS k).2.1 + 5 := by
      cases perturb <;> simp <;> linarith
    exact round1_mem_of_decimal _ _ _ (a - 50) (b + 50)
      (by push_cast; linarith) (by push_cast; linarith) hval1 hval2
  · intro hp
    subst hp
    have hgen : generateVital u false offset = round1 u := by
      simp [generateVital]
    rw [hgen]
    exact round1_mem_of_decimal _ _ _ a b ha hb hu1 hu2

/-- Witness for `generator_range_bound` at Heart Rate with an in-range
draw and no perturbation. -/
theorem generator_range_bound_witness :
    (VITAL_SIGNS .heartRate).1 - 5 ≤ generateVital 80 false 0 ∧
      generateVital 80 false 0 ≤ (VITAL_SIGNS .heartRate).2.1 + 5 :=
  (generator_range_bound .heartRate 80 0 false (by norm_num [VITAL_SIGNS])
    (by norm_num [VITAL_SIGNS]) (by norm_num) (by norm_num)).1

/-- C8: Sync frame condition.  `syncData` sets `last_sync` to the given
time and changes nothing else: vitals, alarms and the offline flag are
unchanged. -/
theorem sync_frame_condition (p : PatientData) (now : String) :
    (syncData p now).last_sync = some now ∧
    (syncData p now).vitals = p.vitals ∧
    (syncData p now).alarms = p.alarms ∧
    (syncData p now).offline = p.offline :=
  ⟨rfl, rfl, rfl, rfl⟩


section QueueLemmas

theorem process_queue_eq (q : List QueuedMessage) :
    process_queue q = (q.map fun m => (processMsg m).1,
                       q.filterMap fun m => (processMsg m).2) := by
  induction q with
  | nil => rfl
  | cons m rest ih =>
    simp only [process_queue, ih, List.map_cons, List.filterMap_cons]
    cases h : (processMsg m).2 <;> simp [h]

theorem processMsg_of_processed (m : QueuedMessage)
    (h : m.status = .processed) : processMsg m = (m, none) := by
  simp [processMsg, h]

theorem processMsg_of_pending_truthy (m : QueuedMessage)
    (h : m.status = .pending)
    (ht : parsedTruthy (parse_hl7_message m.message) = true) :
    processMsg m =
      ({ m with status := .processed,
                parsed_data := parse_hl7_message m.message },
       some { m with status := .processed,
                     parsed_data := parse_hl7_message m.message }) := by
  simp [processMsg, h, ht]

theorem processMsg_of_pending_falsy (m : QueuedMessage)
    (h : m.status = .pending)
    (ht : parsedTruthy (parse_hl7_message m.message) = false) :
    processMsg m = (m, none) := by
  simp [processMsg, h, ht]

theorem process_queue_of_all_processed (q : List QueuedMessage)
    (h : ∀ x ∈ q, x.status = .processed) : process_queue q = (q, []) := by
  rw [process_queue_eq, Prod.mk.injEq]
  constructor
  · conv_rhs => rw [show q = q.map id from (List.map_id q).symm]
    exact List.map_congr_left fun m hm => by
      rw [processMsg_of_processed m (h m hm)]; rfl
  · exact List.filterMap_eq_nil_iff.mpr fun m hm => by
      rw [processMsg_of_processed m (h m hm)]

end QueueLemmas

/-- C4 (counterexample): the claim that a pending message transitions to
processed exactly when its payload decodes successfully is false: the
payload "{}" decodes successfully, yet `process_queue` leaves its
message pending and returns the empty list, because line 78's `if
parsed:` tests Python truthiness of the parsed value, and an empty
object is falsy. -/
theorem process_pending_decode_success_counterexample :
    (parse_hl7_message "\x7b\x7d").isSome = true ∧
    process_queue
        [{ message := "\x7b\x7d", timestamp := "t0", status := .pending,
           parsed_data := none }] =
      ([{ message := "\x7b\x7d", timestamp := "t0", status := .pending,
          parsed_data := none }], []) := by
  constructor
  · rfl
  · rfl

/-- C4 (amended): for every queue state, `process_queue` transitions a
pending message to processed (attaching its parsed payload and including
it in the returned list) exactly when its payload decodes to a truthy
value; a pending message whose payload decodes to a falsy value or fails
to decode stays pending unchanged and is never discarded (the queue
keeps its length and every entry); a processed message is never
revisited or re-included; everything in the returned list is a processed
transition of a formerly pending entry.  In particular the queue holding
the single enqueued string "not json" is returned unchanged with an
empty result list. -/
theorem process_pending_exact_truthy (q : List QueuedMessage) :
    ((process_queue q).1.length = q.length) ∧
    (∀ (i : ℕ) (m : QueuedMessage), q[i]? = some m →
      (m.status = .pending →
        parsedTruthy (parse_hl7_message m.message) = true →
        (process_queue q).1[i]? =
          some { m with status := .processed,
                        parsed_data := parse_hl7_message m.message } ∧
        { m with status := .processed,
                 parsed_data := parse_hl7_message m.message } ∈
          (process_queue q).2) ∧
      (m.status = .pending →
        parsedTruthy (parse_hl7_message m.message) = false →
        (process_queue q).1[i]? = some m) ∧
      (m.status = .processed → (process_queue q).1[i]? = some m)) ∧
    (∀ x ∈ (process_queue q).2, x.status = .processed ∧
      ∃ m ∈ q, m.status = .pending ∧
        parsedTruthy (parse_hl7_message m.message) = true ∧
        x = { m with status := .processed,
                     parsed_data := parse_hl7_message m.message }) ∧
    (∀ ts, process_queue (queue_message [] "not json" ts) =
      (queue_message [] "not json" ts, [])) := by
  refine ⟨?_, ?_, ?_, ?_⟩
  · rw [process_queue_eq]; simp
  · intro i m hm
    have hidx : (process_queue q).1[i]? = (q[i]?).map fun x => (processMsg x).1 := by
      rw [process_queue_eq]
      exact List.getElem?_map _ q i
    refine ⟨?_, ?_, ?_⟩
    · intro hp ht
      constructor
      · rw [hidx, hm, Option.map_some', processMsg_of_pending_truthy m hp ht]
      · rw [process_queue_eq]
        refine List.mem_filterMap.mpr ⟨m, List.getElem?_mem hm, ?_⟩
        rw [processMsg_of_pending_truthy m hp ht]
    · intro hp ht
      rw [hidx, hm, Option.map_some', processMsg_of_pending_falsy m hp ht]
    · intro hp
      rw [hidx, hm, Option.map_some', processMsg_of_processed m hp]
  · intro x hx
    rw [process_queue_eq] at hx
    obtain ⟨m, hmq, hpm⟩ := List.mem_filterMap.mp hx
    unfold processMsg at hpm
    by_cases hp : m.status = .pending
    · rw [if_pos hp] at hpm
      by_cases ht : parsedTruthy (parse_hl7_message m.message) = true
      · rw [if_pos ht] at hpm
        simp only [Option.some.injEq] at hpm
        subst hpm
        exact ⟨rfl, m, hmq, hp, ht, rfl⟩
      · rw [if_neg ht] at hpm
        exact absurd hpm (Option.noConfusion)
    · rw [if_neg hp] at hpm
      exact absurd hpm (Option.noConfusion)
  · intro ts
    have hparse : parse_hl7_message "not json" = none := rfl
    show process_queue [⟨"not json", ts, .pending, none⟩] = _
    have hmsg : processMsg ⟨"not json", ts, .pending, none⟩ =
        (⟨"not json", ts, .pending, none⟩, none) := by
      apply processMsg_of_pending_falsy _ rfl
      rw [show (⟨"not json", ts, .pending, none⟩ : QueuedMessage).message =
        "not json" from rfl, hparse]
      rfl
    simp [process_queue, hmsg, queue_message]

/-- Witness for `process_pending_exact_truthy`: a queue holding the
single pending payload "true" (a truthy decode) has it processed, and a
queue holding the single pending payload "not json" is unchanged. -/
theorem process_pending_exact_truthy_witness :
    (process_queue
        [{ message := "true", timestamp := "t0", status := .pending,
           parsed_data := none }]).1[0]? =
      some { message := "true", timestamp := "t0", status := .processed,
             parsed_data := parse_hl7_message "true" } ∧
    process_queue (queue_message [] "not json" "t1") =
      (queue_message [] "not json" "t1", []) :=
  ⟨(((process_pending_exact_truthy
        [{ message := "true", timestamp := "t0", status := .pending,
           parsed_data := none }]).2.1 0 _ rfl).1 rfl rfl).1,
   (process_pending_exact_truthy []).2.2.2 "t1"⟩

/-- One queue operation never changes an entry already processed. -/
theorem applyQOp_keeps_processed (q : List QueuedMessage) (op : QOp)
    (i : ℕ) (m : QueuedMessage) (hm : q[i]? = some m)
    (hp : m.status = .processed) : (applyQOp q op)[i]? = some m := by
  cases op with
  | enqueue message ts =>
    have hlt : i < q.length := (List.getElem?_eq_some_iff.mp hm).1
    show (queue_message q message ts)[i]? = some m
    unfold queue_message
    rw [List.getElem?_append_left hlt]
    exact hm
  | processPending =>
    show (process_queue q).1[i]? = some m
    rw [process_queue_eq]
    rw [List.getElem?_map _ q i, hm, Option.map_some',
      processMsg_of_processed m hp]

/-- C6: status one-way invariant.  Over every operation sequence from
the empty queue, an entry that is processed stays exactly as it is under
any further enqueue or processPending operation (so no message ever
reverts from processed to pending), and processing a queue whose
entries are all processed is a no-op returning the empty list. -/
theorem status_one_way (ops : List QOp) (op : QOp) :
    (∀ (i : ℕ) (m : QueuedMessage), (runQOps ops)[i]? = some m →
      m.status = .processed → (runQOps (ops ++ [op]))[i]? = some m) ∧
    (∀ q : List QueuedMessage, (∀ x ∈ q, x.status = .processed) →
      process_queue q = (q, [])) := by
  constructor
  · intro i m hm hp
    rw [runQOps, List.foldl_append]
    exact applyQOp_keeps_processed _ op i m hm hp
  · exact process_queue_of_all_processed

/-- Witness for `status_one_way`: after enqueuing the truthy payload
"true" and processing it, a further processing pass leaves the processed
entry untouched. -/
theorem status_one_way_witness :
    (runQOps ([QOp.enqueue "true" "t0", QOp.processPending] ++
        [QOp.processPending]))[0]? =
      some { message := "true", timestamp := "t0", status := .processed,
             parsed_data := some (.jbool true) } ∧
    process_queue [{ message := "x", timestamp := "t1",
                     status := .processed, parsed_data := none }] =
      ([{ message := "x", timestamp := "t1", status := .processed,
          parsed_data := none }], []) :=
  ⟨(status_one_way [QOp.enqueue "true" "t0", QOp.processPending]
      QOp.processPending).1 0 _ rfl rfl,
   (status_one_way [] QOp.processPending).2 _ (by
     intro x hx
     simp only [List.mem_singleton] at hx
     rw [hx])⟩

/-- C9 (implicit): a queued payload that is well-formed JSON but parses
to a falsy value decodes without error yet is never transitioned to
processed — on every number of processing passes the message stays
pending, because line 78's success test is truthiness of the parsed
value rather than decode success.  The concrete payloads "{}", "null",
"0", "[]" and "\"\"" all decode successfully and are all falsy. -/
theorem falsy_payload_never_processed :
    (∀ (s ts : String) (n : ℕ),
      (parse_hl7_message s).isSome = true →
      parsedTruthy (parse_hl7_message s) = false →
      processIter n [{ message := s, timestamp := ts, status := .pending,
                       parsed_data := none }] =
        [{ message := s, timestamp := ts, status := .pending,
           parsed_data := none }]) ∧
    (parse_hl7_message "\x7b\x7d" = some (.jobj .nil) ∧
      parsedTruthy (parse_hl7_message "\x7b\x7d") = false) ∧
    (parse_hl7_message "null" = some .jnull ∧
      parsedTruthy (parse_hl7_message "null") = false) ∧
    (parse_hl7_message "0" = some (.jint 0) ∧
      parsedTruthy (parse_hl7_message "0") = false) ∧
    (parse_hl7_message "[]" = some (.jarr .nil) ∧
      parsedTruthy (parse_hl7_message "[]") = false) ∧
    (parse_hl7_message "\"\"" = some (.jstr "") ∧
      parsedTruthy (parse_hl7_message "\"\"") = false) := by
  refine ⟨?_, ⟨rfl, rfl⟩, ⟨rfl, rfl⟩, ⟨rfl, rfl⟩, ⟨rfl, rfl⟩, ⟨rfl, rfl⟩⟩
  intro s ts n _ hfalsy
  induction n with
  | zero => rfl
  | succ n ih =>
    have hstep : process_queue
        [{ message := s, timestamp := ts, status := .pending,
           parsed_data := none }] =
        ([{ message := s, timestamp := ts, status := .pending,
            parsed_data := none }], []) := by
      have hmsg := processMsg_of_pending_falsy
        { message := s, timestamp := ts, status := .pending,
          parsed_data := none } rfl hfalsy
      simp [process_queue, hmsg]
    show processIter n (process_queue _).1 = _
    rw [hstep]
    exact ih

/-- Witness for `falsy_payload_never_processed`: the payload "null"
decodes successfully, is falsy, and survives one processing pass
pending. -/
theorem falsy_payload_never_processed_witness :
    processIter 1 [{ message := "null", timestamp := "t0",
                     status := .pending, parsed_data := none }] =
      [{ message := "null", timestamp := "t0", status := .pending,
         parsed_data := none }] :=
  falsy_payload_never_processed.1 "null" "t0" 1 rfl rfl

section DigitLemmas

theorem digitChar_toNat (n : ℕ) (h : n < 10) : (digitChar n).toNat = 48 + n := by
  interval_cases n <;> rfl

theorem digitChar_isDigit (n : ℕ) (h : n < 10) : (digitChar n).isDigit = true := by
  interval_cases n <;> rfl

theorem digitChar_ne_zero (n : ℕ) (h1 : 1 ≤ n) (h2 : n < 10) :
    digitChar n ≠ '0' := by
  interval_cases n <;> decide

theorem digitsToNat_append_singleton (l : List Char) (d : Char) :
    digitsToNat (l ++ [d]) = 10 * digitsToNat l + (d.toNat - 48) := by
  unfold digitsToNat
  rw [List.foldl_append]
  rfl

theorem natDigitsAux_spec :
    ∀ f n, n < f →
      digitsToNat (natDigitsAux f n) = n ∧
      (∀ c ∈ natDigitsAux f n, c.isDigit = true) ∧
      ∃ c cs, natDigitsAux f n = c :: cs ∧ (1 ≤ n → c ≠ '0') := by
  intro f
  induction f with
  | zero => omega
  | succ f ih =>
    intro n hn
    by_cases h10 : n < 10
    · rw [natDigitsAux, if_pos h10]
      refine ⟨?_, ?_, digitChar n, [], rfl, fun h1 => digitChar_ne_zero n h1 h10⟩
      · show digitsToNat ([] ++ [digitChar n]) = n
        rw [digitsToNat_append_singleton, digitChar_toNat n h10]
        show 10 * 0 + (48 + n - 48) = n
        omega
      · intro c hc
        simp only [List.mem_singleton] at hc
        rw [hc]
        exact digitChar_isDigit n h10
    · have hdiv : n / 10 < f := by omega
      obtain ⟨hval, hdig, c, cs, hcons, hne⟩ := ih (n / 10) hdiv
      rw [natDigitsAux, if_neg h10]
      refine ⟨?_, ?_, c, cs ++ [digitChar (n % 10)], ?_, ?_⟩
      · rw [digitsToNat_append_singleton, hval,
          digitChar_toNat (n % 10) (Nat.mod_lt n (by omega))]
        omega
      · intro d hd
        rcases List.mem_append.mp hd with h | h
        · exact hdig d h
        · simp only [List.mem_singleton] at h
          rw [h]
          exact digitChar_isDigit _ (Nat.mod_lt n (by omega))
      · rw [hcons]
        rfl
      · intro _
        exact hne (by omega)

theorem digitsToNat_natDigits (n : ℕ) : digitsToNat (natDigits n) = n :=
  (natDigitsAux_spec (n + 1) n (by omega)).1

theorem natDigits_all_digits (n : ℕ) : ∀ c ∈ natDigits n, c.isDigit = true :=
  (natDigitsAux_spec (n + 1) n (by omega)).2.1

theorem natDigits_cons (n : ℕ) :
    ∃ c cs, natDigits n = c :: cs ∧ (1 ≤ n → c ≠ '0') :=
  (natDigitsAux_spec (n + 1) n (by omega)).2.2

theorem natDigits_inj {m n : ℕ} (h : natDigits m = natDigits n) : m = n := by
  have h2 := congrArg digitsToNat h
  rwa [digitsToNat_natDigits, digitsToNat_natDigits] at h2

end DigitLemmas

/-- C7 (counterexample): two distinct encode calls (different patient
ids, different gender/visit draws and clock reads) whose
`random.randint(1000, 9999)` control-id draw happens to repeat produce
two different messages carrying the same control id — the control id is
not unique per call. -/
theorem control_id_not_unique_counterexample :
    generate_patient_data "A"
        ⟨1234, true, 5678, 80, 120, 97, "T1", "D1", "oa", "ob", "oc"⟩ ≠
      generate_patient_data "B"
        ⟨1234, false, 4321, 70, 100, 96, "T2", "D2", "pa", "pb", "pc"⟩ ∧
    controlIdOf (generate_patient_data "A"
        ⟨1234, true, 5678, 80, 120, 97, "T1", "D1", "oa", "ob", "oc"⟩) =
      controlIdOf (generate_patient_data "B"
        ⟨1234, false, 4321, 70, 100, 96, "T2", "D2", "pa", "pb", "pc"⟩) := by
  constructor
  · decide
  · rfl

/-- C7 (amended): every encode call's message carries the control id
"MSG" followed by the decimal digits of that call's
`random.randint(1000, 9999)` draw; the control ids of two calls coincide
exactly when their draws coincide — so uniqueness holds only across
calls with distinct draws and is not guaranteed per call. -/
theorem control_id_from_draw (pid1 pid2 : String) (d1 d2 : GenDraws) :
    controlIdOf (generate_patient_data pid1 d1) =
      some (.jstr ("MSG" ++ String.mk (natDigits d1.ctrlId))) ∧
    (controlIdOf (generate_patient_data pid1 d1) =
        controlIdOf (generate_patient_data pid2 d2) ↔
      d1.ctrlId = d2.ctrlId) := by
  have e1 : controlIdOf (generate_patient_data pid1 d1) =
      some (.jstr ("MSG" ++ String.mk (natDigits d1.ctrlId))) := rfl
  have e2 : controlIdOf (generate_patient_data pid2 d2) =
      some (.jstr ("MSG" ++ String.mk (natDigits d2.ctrlId))) := rfl
  refine ⟨e1, ?_, fun h => by rw [e1, e2, h]⟩
  intro h
  rw [e1, e2] at h
  simp only [Option.some.injEq, JValue.jstr.injEq] at h
  have hd := congrArg String.data h
  simp only [String.data_append] at hd
  have hl : (String.mk (natDigits d1.ctrlId)).data =
      (String.mk (natDigits d2.ctrlId)).data :=
    List.append_cancel_left hd
  exact natDigits_inj hl

/-- C2 (counterexample): decode does not validate header/subject fields:
the payload "{}" is well-formed JSON with no MSH header and no PID
subject, yet decode returns it parsed instead of reporting failure. -/
theorem decode_missing_fields_counterexample :
    parse_hl7_message "\x7b\x7d" = some (.jobj .nil) ∧
    specRequiredFieldsPresent (.jobj .nil) = false := ⟨rfl, rfl⟩

/-- C10: the textual ("hl7") export mode.  For any format argument
whose lowercase form is "hl7", the output is independent of the patient
id and of every random draw (two exports at the same clock value are
identical), and it contains the constant control id "MSG12345"; for any
format argument whose lowercase form is neither "json" nor "hl7", the
export is the empty string. -/
theorem export_textual_mode (pid1 pid2 : String) (d1 d2 : GenDraws)
    (nc fmt : String) :
    (lowerStr fmt = "hl7" →
      export_patient_data pid1 d1 nc fmt = export_patient_data pid2 d2 nc fmt ∧
      ∃ a b : String,
        export_patient_data pid1 d1 nc fmt = a ++ "MSG12345" ++ b) ∧
    (lowerStr fmt ≠ "json" → lowerStr fmt ≠ "hl7" →
      export_patient_data pid1 d1 nc fmt = "") := by
  constructor
  · intro h
    have hj : lowerStr fmt ≠ "json" := by
      rw [h]
      decide
    constructor
    · simp only [export_patient_data, if_neg hj, if_pos h]
    · simp only [export_patient_data, if_neg hj, if_pos h]
      refine ⟨"MSH|^~\\&|SkanRay|HOSPITAL|HL7|HOSPITAL|" ++ nc ++ "||ORU^R01|",
        "|P|2.5", ?_⟩
      have hsplit : ("||ORU^R01|MSG12345|P|2.5" : String) =
          "||ORU^R01|" ++ "MSG12345" ++ "|P|2.5" := rfl
      rw [hsplit]
      simp [String.append_assoc]
  · intro hj hh
    simp only [export_patient_data, if_neg hj, if_neg hh]

/-- Witness for `export_textual_mode`: format "HL7" gives identical
outputs for two different patients, containing "MSG12345"; format "xml"
gives the empty string. -/
theorem export_textual_mode_witness :
    (export_patient_data "1"
        ⟨1000, true, 1000, 80, 120, 97, "a", "b", "c", "d", "e"⟩
        "20250101000000" "HL7" =
      export_patient_data "2"
        ⟨2000, false, 2000, 70, 110, 96, "f", "g", "h", "i", "j"⟩
        "20250101000000" "HL7") ∧
    export_patient_data "1"
        ⟨1000, true, 1000, 80, 120, 97, "a", "b", "c", "d", "e"⟩
        "x" "xml" = "" :=
  ⟨((export_textual_mode "1" "2"
      ⟨1000, true, 1000, 80, 120, 97, "a", "b", "c", "d", "e"⟩
      ⟨2000, false, 2000, 70, 110, 96, "f", "g", "h", "i", "j"⟩
      "20250101000000" "HL7").1 (by decide)).1,
   (export_textual_mode "1" "2"
      ⟨1000, true, 1000, 80, 120, 97, "a", "b", "c", "d", "e"⟩
      ⟨2000, false, 2000, 70, 110, 96, "f", "g", "h", "i", "j"⟩
      "x" "xml").2 (by decide) (by decide)⟩

section StringEscapeLemmas

theorem hexVal_hexDigitChar (n : ℕ) (h : n < 16) :
    hexVal (hexDigitChar n) = some n := by
  interval_cases n <;> rfl

theorem parseHex4_toHex4 (n : ℕ) (h : n < 0x10000) (rest : List Char) :
    parseHex4 (toHex4 n ++ rest) = some (n, rest) := by
  have estep : ∀ (c1 c2 c3 c4 : Char) (r : List Char),
      parseHex4 (c1 :: c2 :: c3 :: c4 :: r) =
        match hexVal c1, hexVal c2, hexVal c3, hexVal c4 with
        | some a, some b, some c, some d =>
          some (4096 * a + 256 * b + 16 * c + d, r)
        | _, _, _, _ => none := fun _ _ _ _ _ => rfl
  show parseHex4 (hexDigitChar (n / 4096 % 16) :: hexDigitChar (n / 256 % 16) ::
    hexDigitChar (n / 16 % 16) :: hexDigitChar (n % 16) :: rest) = some (n, rest)
  rw [estep, hexVal_hexDigitChar _ (Nat.mod_lt _ (by omega)),
    hexVal_hexDigitChar _ (Nat.mod_lt _ (by omega)),
    hexVal_hexDigitChar _ (Nat.mod_lt _ (by omega)),
    hexVal_hexDigitChar _ (Nat.mod_lt _ (by omega))]
  simp only [Option.some.injEq, Prod.mk.injEq]
  refine ⟨by omega, trivial⟩

theorem char_toNat_valid (c : Char) :
    c.toNat < 0xd800 ∨ (0xe000 ≤ c.toNat ∧ c.toNat < 0x110000) := c.valid

theorem escapeChar_length_pos (c : Char) : 1 ≤ (escapeChar c).length := by
  unfold escapeChar
  split_ifs <;> simp [toHex4]

theorem parseStrBody_u_eq (g : ℕ) (X : List Char) :
    parseStrBody (g + 1) ('\\' :: 'u' :: X) =
      match parseHex4 X with
      | none => none
      | some (n, cs3) =>
        if n < 0xd800 ∨ 0xe000 ≤ n then
          (parseStrBody g cs3).map fun p => (Char.ofNat n :: p.1, p.2)
        else if n < 0xdc00 then
          match cs3 with
          | b1 :: b2 :: cs4 =>
            if b1 = '\\' ∧ b2 = 'u' then
              match parseHex4 cs4 with
              | some (m, cs5) =>
                if 0xdc00 ≤ m ∧ m < 0xe000 then
                  (parseStrBody g cs5).map fun p =>
                    (Char.ofNat (0x10000 + (n - 0xd800) * 0x400 + (m - 0xdc00)) :: p.1, p.2)
                else none
              | none => none
            else none
          | _ => none
        else none := rfl

theorem parseStrBody_plain_eq (g : ℕ) (c : Char) (cs : List Char)
    (h1 : c ≠ '"') (h2 : c ≠ '\\') (h3 : ¬ c.toNat < 0x20) :
    parseStrBody (g + 1) (c :: cs) =
      (parseStrBody g cs).map fun p => (c :: p.1, p.2) := by
  show (if c = '"' then some ([], cs)
    else if c = '\\' then
      match cs with
      | [] => none
      | e :: cs2 =>
        if e = 'u' then
          match parseHex4 cs2 with
          | none => none
          | some (n, cs3) =>
            if n < 0xd800 ∨ 0xe000 ≤ n then
              (parseStrBody g cs3).map fun p => (Char.ofNat n :: p.1, p.2)
            else if n < 0xdc00 then
              match cs3 with
              | b1 :: b2 :: cs4 =>
                if b1 = '\\' ∧ b2 = 'u' then
                  match parseHex4 cs4 with
                  | some (m, cs5) =>
                    if 0xdc00 ≤ m ∧ m < 0xe000 then
                      (parseStrBody g cs5).map fun p =>
                        (Char.ofNat (0x10000 + (n - 0xd800) * 0x400 + (m - 0xdc00)) :: p.1, p.2)
                    else none
                  | none => none
                else none
              | _ => none
            else none
        else
          match escShort e with
          | some d => (parseStrBody g cs2).map fun p => (d :: p.1, p.2)
          | none => none
    else if c.toNat < 0x20 then none
    else (parseStrBody g cs).map fun p => (c :: p.1, p.2)) =
    (parseStrBody g cs).map fun p => (c :: p.1, p.2)
  rw [if_neg h1, if_neg h2, if_neg h3]

theorem parseStrBody_escapeChar (c : Char) (tail : List Char) (g : ℕ) :
    parseStrBody (g + 1) (escapeChar c ++ tail) =
      (parseStrBody g tail).map fun p => (c :: p.1, p.2) := by
  by_cases h1 : c = '"'
  · subst h1; simp [escapeChar, parseStrBody, escShort]
  by_cases h2 : c = '\\'
  · subst h2; simp [escapeChar, parseStrBody, escShort]
  by_cases h3 : c = '\x08'
  · subst h3; simp [escapeChar, parseStrBody, escShort]
  by_cases h4 : c = '\t'
  · subst h4; simp [escapeChar, parseStrBody, escShort]
  by_cases h5 : c = '\n'
  · subst h5; simp [escapeChar, parseStrBody, escShort]
  by_cases h6 : c = '\x0c'
  · subst h6; simp [escapeChar, parseStrBody, escShort]
  by_cases h7 : c = '\x0d'
  · subst h7; simp [escapeChar, parseStrBody, escShort]
  by_cases h8 : 0x20 ≤ c.toNat ∧ c.toNat ≤ 0x7e
  · have he : escapeChar c = [c] := by
      unfold escapeChar
      rw [if_neg h1, if_neg h2, if_neg h3, if_neg h4, if_neg h5, if_neg h6,
        if_neg h7, if_pos h8]
    rw [he]
    exact parseStrBody_plain_eq g c tail h1 h2 (by omega)
  by_cases h9 : c.toNat < 0x10000
  · have he : escapeChar c = '\\' :: 'u' :: toHex4 c.toNat := by
      unfold escapeChar
      rw [if_neg h1, if_neg h2, if_neg h3, if_neg h4, if_neg h5, if_neg h6,
        if_neg h7, if_neg h8, if_pos h9]
    have hv : c.toNat < 0xd800 ∨ 0xe000 ≤ c.toNat := by
      rcases char_toNat_valid c with h | h
      · exact Or.inl h
      · exact Or.inr h.1
    rw [he]
    show parseStrBody (g + 1) ('\\' :: 'u' :: (toHex4 c.toNat ++ tail)) = _
    simp only [parseStrBody_u_eq, parseHex4_toHex4 c.toNat h9]
    rw [if_pos hv, Char.ofNat_toNat]
  · have he : escapeChar c =
        ('\\' :: 'u' :: toHex4 (0xd800 + (c.toNat - 0x10000) / 0x400)) ++
          ('\\' :: 'u' :: toHex4 (0xdc00 + (c.toNat - 0x10000) % 0x400)) := by
      unfold escapeChar
      rw [if_neg h1, if_neg h2, if_neg h3, if_neg h4, if_neg h5, if_neg h6,
        if_neg h7, if_neg h8, if_neg h9]
    have hcv := char_toNat_valid c
    have hmod := Nat.mod_lt (c.toNat - 0x10000) (show 0 < 0x400 by omega)
    have hhi : 0xd800 + (c.toNat - 0x10000) / 0x400 < 0x10000 := by omega
    have hlo : 0xdc00 + (c.toNat - 0x10000) % 0x400 < 0x10000 := by omega
    rw [he]
    have hre : (('\\' :: 'u' :: toHex4 (0xd800 + (c.toNat - 0x10000) / 0x400)) ++
        ('\\' :: 'u' :: toHex4 (0xdc00 + (c.toNat - 0x10000) % 0x400))) ++ tail =
        '\\' :: 'u' :: (toHex4 (0xd800 + (c.toNat - 0x10000) / 0x400) ++
          ('\\' :: 'u' :: (toHex4 (0xdc00 + (c.toNat - 0x10000) % 0x400) ++ tail))) := by
      simp [List.cons_append, List.append_assoc]
    rw [hre, parseStrBody_u_eq, parseHex4_toHex4 _ hhi]
    dsimp only
    rw [if_neg (by omega), if_pos (by omega), if_pos ⟨rfl, rfl⟩,
      parseHex4_toHex4 _ hlo]
    dsimp only
    rw [if_pos (by omega)]
    have hcomb : 0x10000 +
        (0xd800 + (c.toNat - 0x10000) / 0x400 - 0xd800) * 0x400 +
        (0xdc00 + (c.toNat - 0x10000) % 0x400 - 0xdc00) = c.toNat := by
      have hd := Nat.div_add_mod (c.toNat - 0x10000) 0x400
      omega
    rw [hcomb, Char.ofNat_toNat]

theorem parseStrBody_escapeList :
    ∀ (l : List Char) (rest : List Char) (f : ℕ),
      (escapeList l).length < f →
      parseStrBody f (escapeList l ++ '"' :: rest) = some (l, rest) := by
  intro l
  induction l with
  | nil =>
    intro rest f hf
    match f, hf with
    | g + 1, _ =>
      show parseStrBody (g + 1) ('"' :: rest) = some ([], rest)
      simp [parseStrBody]
  | cons c cs ih =>
    intro rest f hf
    have hlen : (escapeList (c :: cs)).length =
        (escapeChar c).length + (escapeList cs).length := by
      show (escapeChar c ++ escapeList cs).length = _
      simp
    have hcpos := escapeChar_length_pos c
    match f, (by omega : 1 ≤ f) with
    | g + 1, _ =>
      show parseStrBody (g + 1) (escapeList (c :: cs) ++ '"' :: rest) = _
      have hsplit : escapeList (c :: cs) ++ '"' :: rest =
          escapeChar c ++ (escapeList cs ++ '"' :: rest) := by
        show (escapeChar c ++ escapeList cs) ++ '"' :: rest = _
        rw [List.append_assoc]
      rw [hsplit, parseStrBody_escapeChar c _ g,
        ih rest g (by rw [hlen] at hf; omega)]
      rfl

end StringEscapeLemmas


section NumberLemmas

theorem numSafe_head (rest : List Char) (h : numSafe rest = true) :
    ∀ c t, rest = c :: t →
      c.isDigit = false ∧ c ≠ '.' ∧ c ≠ 'e' ∧ c ≠ 'E' := by
  intro c t hr
  subst hr
  simp only [numSafe, Bool.not_eq_eq_eq_not, Bool.not_true,
    Bool.or_eq_false_iff, decide_eq_false_iff_not] at h
  exact ⟨h.1.1.1, h.1.1.2, h.1.2, h.2⟩

theorem takeDigits_append (ds rest : List Char)
    (hd : ∀ c ∈ ds, c.isDigit = true)
    (hr : ∀ c t, rest = c :: t → c.isDigit = false) :
    takeDigits (ds ++ rest) = (ds, rest) := by
  induction ds with
  | nil =>
    cases rest with
    | nil => rfl
    | cons c t =>
      show takeDigits (c :: t) = ([], c :: t)
      unfold takeDigits
      rw [hr c t rfl]
      rfl
  | cons d ds ih =>
    show takeDigits (d :: (ds ++ rest)) = (d :: ds, rest)
    unfold takeDigits
    rw [hd d (List.mem_cons_self d ds),
      ih fun c hc => hd c (List.mem_cons_of_mem d hc)]
    rfl

theorem parseFrac_safe (rest : List Char) (h : numSafe rest = true) :
    parseFrac rest = (none, rest) := by
  match rest with
  | [] => rfl
  | [c] => rfl
  | c :: c2 :: t =>
    have hne : c ≠ '.' := (numSafe_head _ h c (c2 :: t) rfl).2.1
    show parseFrac (c :: c2 :: t) = (none, c :: c2 :: t)
    unfold parseFrac
    dsimp only
    rw [if_neg (fun hand => hne hand.1)]

theorem parseExp_safe (rest : List Char) (h : numSafe rest = true) :
    parseExp rest = (none, rest) := by
  cases rest with
  | nil => rfl
  | cons e t =>
    have he := numSafe_head _ h e t rfl
    show parseExp (e :: t) = (none, e :: t)
    unfold parseExp
    dsimp only
    have hcond : (e = 'e' || e = 'E') = false := by
      simp [he.2.2.1, he.2.2.2]
    rw [hcond]
    rfl

theorem parseNumBody_natDigits (neg : Bool) (n : ℕ) (rest : List Char)
    (hsafe : numSafe rest = true) :
    parseNumBody neg (natDigits n ++ rest) =
      some (.jint (if neg then -(n : ℤ) else (n : ℤ)), rest) := by
  have hrd : ∀ c t, rest = c :: t → c.isDigit = false :=
    fun c t ht => (numSafe_head rest hsafe c t ht).1
  by_cases hn : n = 0
  · subst hn
    show parseNumBody neg ('0' :: rest) = _
    unfold parseNumBody
    dsimp only
    rw [if_pos (show ('0').isDigit = true by decide), if_pos rfl]
    dsimp only
    rw [parseFrac_safe rest hsafe]
    dsimp only
    rw [parseExp_safe rest hsafe]
  · obtain ⟨c, cs, hcons, hn0⟩ := natDigits_cons n
    have hc0 : c ≠ '0' := hn0 (by omega)
    have hdig : c.isDigit = true := by
      apply natDigits_all_digits n
      rw [hcons]
      exact List.mem_cons_self c cs
    rw [hcons]
    show parseNumBody neg (c :: (cs ++ rest)) = _
    unfold parseNumBody
    dsimp only
    rw [if_pos hdig, if_neg hc0]
    dsimp only
    rw [← List.cons_append,
      takeDigits_append (c :: cs) rest
        (by rw [← hcons]; exact natDigits_all_digits n) hrd]
    dsimp only
    rw [← hcons, digitsToNat_natDigits n, parseFrac_safe rest hsafe]
    dsimp only
    rw [parseExp_safe rest hsafe]

theorem parseNum_intRepr (n : ℤ) (rest : List Char)
    (hsafe : numSafe rest = true) :
    parseNum (intRepr n ++ rest) = some (.jint n, rest) := by
  by_cases hneg : n < 0
  · have hir : intRepr n = '-' :: natDigits n.natAbs := by
      unfold intRepr
      rw [if_pos hneg]
    rw [hir]
    show parseNum ('-' :: (natDigits n.natAbs ++ rest)) = _
    unfold parseNum
    dsimp only
    rw [if_pos rfl, parseNumBody_natDigits true n.natAbs rest hsafe]
    have : -(n.natAbs : ℤ) = n := by omega
    rw [if_pos rfl, this]
  · have hir : intRepr n = natDigits n.natAbs := by
      unfold intRepr
      rw [if_neg hneg]
    rw [hir]
    obtain ⟨c, cs, hcons, _⟩ := natDigits_cons n.natAbs
    have hdig : c.isDigit = true := by
      apply natDigits_all_digits n.natAbs
      rw [hcons]
      exact List.mem_cons_self c cs
    have hcminus : c ≠ '-' := by
      intro he
      rw [he] at hdig
      exact absurd hdig (by decide)
    rw [hcons]
    show parseNum (c :: (cs ++ rest)) = _
    unfold parseNum
    dsimp only
    rw [if_neg hcminus, ← List.cons_append, ← hcons,
      parseNumBody_natDigits false n.natAbs rest hsafe]
    have : (n.natAbs : ℤ) = n := by omega
    rw [if_neg (by decide), this]

end NumberLemmas

section HeadAndWsLemmas

theorem digit_head_facts (c : Char) (h : c.isDigit = true) :
    isJWs c = false ∧ c ≠ ']' ∧ c ≠ '\x7b' ∧ c ≠ '[' ∧ c ≠ '"' ∧
      c ≠ 'n' ∧ c ≠ 't' ∧ c ≠ 'f' := by
  refine ⟨?_, ?_, ?_, ?_, ?_, ?_, ?_, ?_⟩
  · by_contra hw
    have hw' : isJWs c = true := by
      cases hws : isJWs c
      · exact absurd hws hw
      · rfl
    simp only [isJWs, Bool.or_eq_true, decide_eq_true_eq] at hw'
    rcases hw' with ((h1 | h1) | h1) | h1 <;>
      · rw [h1] at h
        exact absurd h (by decide)
  all_goals
    intro he
    rw [he] at h
    exact absurd h (by decide)

theorem jdumpV_head (v : JValue) :
    ∃ c cs, jdumpV v = c :: cs ∧ isJWs c = false ∧ c ≠ ']' := by
  cases v with
  | jnull => exact ⟨'n', _, rfl, by decide, by decide⟩
  | jbool b =>
    cases b
    · exact ⟨'f', _, rfl, by decide, by decide⟩
    · exact ⟨'t', _, rfl, by decide, by decide⟩
  | jint n =>
    show ∃ c cs, intRepr n = c :: cs ∧ _
    by_cases hneg : n < 0
    · refine ⟨'-', natDigits n.natAbs, ?_, by decide, by decide⟩
      unfold intRepr
      rw [if_pos hneg]
    · obtain ⟨c, cs, hcons, _⟩ := natDigits_cons n.natAbs
      have hdig : c.isDigit = true := by
        apply natDigits_all_digits n.natAbs
        rw [hcons]
        exact List.mem_cons_self c cs
      have hf := digit_head_facts c hdig
      refine ⟨c, cs, ?_, hf.1, hf.2.1⟩
      unfold intRepr
      rw [if_neg hneg, hcons]
  | jfloat q => exact ⟨'0', _, rfl, by decide, by decide⟩
  | jstr s => exact ⟨'"', _, rfl, by decide, by decide⟩
  | jarr xs =>
    cases xs
    · exact ⟨'[', _, rfl, by decide, by decide⟩
    · exact ⟨'[', _, rfl, by decide, by decide⟩
  | jobj fs =>
    cases fs
    · exact ⟨'\x7b', _, rfl, by decide, by decide⟩
    · exact ⟨'\x7b', _, rfl, by decide, by decide⟩

theorem skipWs_cons_not_ws (c : Char) (cs : List Char) (h : isJWs c = false) :
    skipWs (c :: cs) = c :: cs := by
  show (if isJWs c = true then skipWs cs else c :: cs) = c :: cs
  rw [h]
  rfl

theorem skipWs_cons_ws (c : Char) (cs : List Char) (h : isJWs c = true) :
    skipWs (c :: cs) = skipWs cs := by
  show (if isJWs c = true then skipWs cs else c :: cs) = skipWs cs
  rw [h]
  rfl

theorem parseV_ws (g : ℕ) (c : Char) (x : List Char) (h : isJWs c = true) :
    parseV g (c :: x) = parseV g x := by
  cases g with
  | zero => rfl
  | succ g =>
    show parseV (g + 1) (c :: x) = parseV (g + 1) x
    unfold parseV
    rw [skipWs_cons_ws c x h]

theorem parseElems_ws (g : ℕ) (c : Char) (x : List Char)
    (h : isJWs c = true) :
    parseElems g (c :: x) = parseElems g x := by
  cases g with
  | zero => rfl
  | succ g =>
    show parseElems (g + 1) (c :: x) = parseElems (g + 1) x
    unfold parseElems
    rw [parseV_ws g c x h]

theorem parseMems_ws (g : ℕ) (c : Char) (x : List Char)
    (h : isJWs c = true) :
    parseMems g (c :: x) = parseMems g x := by
  cases g with
  | zero => rfl
  | succ g =>
    show parseMems (g + 1) (c :: x) = parseMems (g + 1) x
    unfold parseMems
    rw [skipWs_cons_ws c x h]

end HeadAndWsLemmas

mutual
theorem fuelV_le : ∀ v : JValue, fuelV v ≤ (jdumpV v).length + 1
  | .jnull => by simp [fuelV]
  | .jbool b => by cases b <;> simp [fuelV]
  | .jint n => by simp [fuelV]
  | .jfloat q => by simp [fuelV]
  | .jstr s => by simp [fuelV]
  | .jarr .nil => by simp [fuelV, fuelA, jdumpV]
  | .jarr (.cons v xs) => by
    have h1 := fuelV_le v
    have h2 := fuelA_le xs
    show 1 + fuelA (.cons v xs) ≤ ('[' :: (jdumpV v ++ jdumpA xs) ++ [']']).length + 1
    show 1 + (1 + max (fuelV v) (fuelA xs)) ≤ _
    simp only [List.length_append, List.length_cons]
    omega
  | .jobj .nil => by simp [fuelV, fuelO, jdumpV]
  | .jobj (.cons k v fs) => by
    have h1 := fuelV_le v
    have h2 := fuelO_le fs
    show 1 + fuelO (.cons k v fs) ≤
      ('\x7b' :: (escapeString k ++ ':' :: ' ' :: jdumpV v ++ jdumpO fs) ++ ['\x7d']).length + 1
    show 1 + (1 + max (fuelV v) (fuelO fs)) ≤ _
    simp only [List.length_append, List.length_cons]
    omega
theorem fuelA_le : ∀ xs : JArr, fuelA xs ≤ (jdumpA xs).length + 1
  | .nil => by simp [fuelA]
  | .cons v xs => by
    have h1 := fuelV_le v
    have h2 := fuelA_le xs
    show 1 + max (fuelV v) (fuelA xs) ≤ (',' :: ' ' :: jdumpV v ++ jdumpA xs).length + 1
    simp only [List.length_append, List.length_cons]
    omega
theorem fuelO_le : ∀ fs : JObj, fuelO fs ≤ (jdumpO fs).length + 1
  | .nil => by simp [fuelO]
  | .cons k v fs => by
    have h1 := fuelV_le v
    have h2 := fuelO_le fs
    show 1 + max (fuelV v) (fuelO fs) ≤
      (',' :: ' ' :: escapeString k ++ ':' :: ' ' :: jdumpV v ++ jdumpO fs).length + 1
    simp only [List.length_append, List.length_cons]
    omega
end

section RoundTripLemmas

theorem parseV_minus_step (f : ℕ) (X : List Char) :
    parseV (f + 1) ('-' :: X) = parseNum ('-' :: X) := rfl

theorem parseV_quote_step (f : ℕ) (X : List Char) :
    parseV (f + 1) ('"' :: X) =
      (parseStrBody (X.length + 1) X).map fun p =>
        (.jstr (String.mk p.1), p.2) := rfl

theorem parseV_lbracket_step (f : ℕ) (X : List Char) :
    parseV (f + 1) ('[' :: X) =
      (match skipWs X with
       | c2 :: r2 =>
         if c2 = ']' then some (.jarr .nil, r2)
         else (parseElems f X).map fun p => (.jarr p.1, p.2)
       | [] => (parseElems f X).map fun p => (.jarr p.1, p.2)) := rfl

theorem parseV_lbrace_step (f : ℕ) (X : List Char) :
    parseV (f + 1) ('\x7b' :: X) =
      (match skipWs X with
       | c2 :: r2 =>
         if c2 = '\x7d' then some (.jobj .nil, r2)
         else (parseMems f X).map fun p => (.jobj p.1, p.2)
       | [] => (parseMems f X).map fun p => (.jobj p.1, p.2)) := rfl

theorem parseV_intRepr (f : ℕ) (n : ℤ) (rest : List Char)
    (hsafe : numSafe rest = true) :
    parseV (f + 1) (intRepr n ++ rest) = some (.jint n, rest) := by
  by_cases hneg : n < 0
  · have hir : intRepr n = '-' :: natDigits n.natAbs := by
      unfold intRepr
      rw [if_pos hneg]
    rw [hir]
    show parseV (f + 1) ('-' :: (natDigits n.natAbs ++ rest)) = _
    rw [parseV_minus_step, ← List.cons_append, ← hir]
    exact parseNum_intRepr n rest hsafe
  · have hir : intRepr n = natDigits n.natAbs := by
      unfold intRepr
      rw [if_neg hneg]
    obtain ⟨c, cs, hcons, _⟩ := natDigits_cons n.natAbs
    have hdig : c.isDigit = true := by
      apply natDigits_all_digits n.natAbs
      rw [hcons]
      exact List.mem_cons_self c cs
    have hf := digit_head_facts c hdig
    rw [hir, hcons]
    show parseV (f + 1) (c :: (cs ++ rest)) = _
    unfold parseV
    rw [skipWs_cons_not_ws c _ hf.1]
    dsimp only
    rw [if_neg hf.2.2.1, if_neg hf.2.2.2.1, if_neg hf.2.2.2.2.1,
      if_neg hf.2.2.2.2.2.1, if_neg hf.2.2.2.2.2.2.1,
      if_neg hf.2.2.2.2.2.2.2, ← List.cons_append, ← hcons, ← hir]
    exact parseNum_intRepr n rest hsafe

theorem parseV_escapeString (f : ℕ) (s : String) (rest : List Char) :
    parseV (f + 1) (escapeString s ++ rest) = some (.jstr s, rest) := by
  have hre : escapeString s ++ rest =
      '"' :: (escapeList s.data ++ '"' :: rest) := by
    show ('"' :: escapeList s.data ++ ['"']) ++ rest = _
    simp [List.cons_append, List.append_assoc]
  rw [hre, parseV_quote_step,
    parseStrBody_escapeList s.data rest _ (by
      simp only [List.length_append, List.length_cons]
      omega)]
  rfl

theorem parse_dump :
    ∀ f : ℕ,
      (∀ (v : JValue) (rest : List Char), noFloatV v = true →
        numSafe rest = true → fuelV v ≤ f →
        parseV f (jdumpV v ++ rest) = some (v, rest)) ∧
      (∀ (v : JValue) (xs : JArr) (rest : List Char), noFloatV v = true →
        noFloatA xs = true → 1 + max (fuelV v) (fuelA xs) ≤ f →
        parseElems f (jdumpV v ++ (jdumpA xs ++ ']' :: rest)) =
          some (.cons v xs, rest)) ∧
      (∀ (k : String) (v : JValue) (fs : JObj) (rest : List Char),
        noFloatV v = true → noFloatO fs = true →
        1 + max (fuelV v) (fuelO fs) ≤ f →
        parseMems f (escapeString k ++ ':' :: ' ' :: jdumpV v ++
          (jdumpO fs ++ '\x7d' :: rest)) = some (.cons k v fs, rest)) := by
  intro f
  induction f with
  | zero =>
    refine ⟨?_, ?_, ?_⟩
    · intro v rest _ _ hfuel
      exact absurd hfuel (by cases v <;> simp [fuelV])
    · intro v xs rest _ _ hfuel
      exact absurd hfuel (by omega)
    · intro k v fs rest _ _ hfuel
      exact absurd hfuel (by omega)
  | succ f ih =>
    obtain ⟨ihV, ihA, ihO⟩ := ih
    refine ⟨?_, ?_, ?_⟩
    · intro v rest hnf hsafe hfuel
      cases v with
      | jnull => rfl
      | jbool b => cases b <;> rfl
      | jint n => exact parseV_intRepr f n rest hsafe
      | jfloat q => exact absurd hnf (by simp [noFloatV])
      | jstr s => exact parseV_escapeString f s rest
      | jarr xs =>
        cases xs with
        | nil => rfl
        | cons v2 ys =>
          have hnf2 : noFloatV v2 = true ∧ noFloatA ys = true := by
            have : noFloatV (.jarr (.cons v2 ys)) =
                (noFloatV v2 && noFloatA ys) := rfl
            rw [this] at hnf
            exact Bool.and_eq_true_iff.mp hnf
          have hre : jdumpV (.jarr (.cons v2 ys)) ++ rest =
              '[' :: (jdumpV v2 ++ (jdumpA ys ++ ']' :: rest)) := by
            show ('[' :: (jdumpV v2 ++ jdumpA ys) ++ [']']) ++ rest = _
            simp [List.cons_append, List.append_assoc]
          rw [hre, parseV_lbracket_step]
          obtain ⟨c, cs0, hdv, hnw, hner⟩ := jdumpV_head v2
          rw [hdv, List.cons_append, skipWs_cons_not_ws c _ hnw]
          dsimp only
          rw [if_neg hner, ← List.cons_append, ← hdv,
            ihA v2 ys rest hnf2.1 hnf2.2 (by
              have : fuelV (.jarr (.cons v2 ys)) =
                  1 + (1 + max (fuelV v2) (fuelA ys)) := rfl
              rw [this] at hfuel
              omega)]
          rfl
      | jobj fs =>
        cases fs with
        | nil => rfl
        | cons k v2 gs =>
          have hnf2 : noFloatV v2 = true ∧ noFloatO gs = true := by
            have : noFloatV (.jobj (.cons k v2 gs)) =
                (noFloatV v2 && noFloatO gs) := rfl
            rw [this] at hnf
            exact Bool.and_eq_true_iff.mp hnf
          have hre : jdumpV (.jobj (.cons k v2 gs)) ++ rest =
              '\x7b' :: (escapeString k ++ ':' :: ' ' :: jdumpV v2 ++
                (jdumpO gs ++ '\x7d' :: rest)) := by
            show ('\x7b' :: (escapeString k ++ ':' :: ' ' :: jdumpV v2 ++ jdumpO gs)
              ++ ['\x7d']) ++ rest = _
            simp [List.cons_append, List.append_assoc]
          rw [hre, parseV_lbrace_step]
          have hq : escapeString k ++ ':' :: ' ' :: jdumpV v2 ++
              (jdumpO gs ++ '\x7d' :: rest) =
              '"' :: (escapeList k.data ++ ('"' :: (':' :: ' ' :: jdumpV v2 ++
                (jdumpO gs ++ '\x7d' :: rest)))) := by
            show ('"' :: escapeList k.data ++ ['"']) ++ _ ++ _ = _
            simp [List.cons_append, List.append_assoc]
          rw [hq, skipWs_cons_not_ws _ _ (by decide)]
          dsimp only
          rw [if_neg (by decide)]
          have hmems : parseMems f ('"' :: (escapeList k.data ++ ('"' ::
              (':' :: ' ' :: jdumpV v2 ++ (jdumpO gs ++ '\x7d' :: rest))))) =
              some (.cons k v2 gs, rest) := by
            rw [← hq]
            exact ihO k v2 gs rest hnf2.1 hnf2.2 (by
              have : fuelV (.jobj (.cons k v2 gs)) =
                  1 + (1 + max (fuelV v2) (fuelO gs)) := rfl
              rw [this] at hfuel
              omega)
          rw [hmems]
          rfl
    · intro v xs rest hnfv hnfxs hfuel
      have hfv : fuelV v ≤ f := by omega
      cases xs with
      | nil =>
        have hpv : parseV f (jdumpV v ++ (jdumpA JArr.nil ++ ']' :: rest)) =
            some (v, jdumpA JArr.nil ++ ']' :: rest) :=
          ihV v _ hnfv (by rfl) hfv
        unfold parseElems
        rw [hpv]
        rfl
      | cons v2 ys =>
        have hnf2 : noFloatV v2 = true ∧ noFloatA ys = true := by
          have : noFloatA (.cons v2 ys) = (noFloatV v2 && noFloatA ys) := rfl
          rw [this] at hnfxs
          exact Bool.and_eq_true_iff.mp hnfxs
        have hpv : parseV f (jdumpV v ++ (jdumpA (JArr.cons v2 ys) ++ ']' :: rest)) =
            some (v, jdumpA (JArr.cons v2 ys) ++ ']' :: rest) :=
          ihV v _ hnfv (by rfl) hfv
        have hre : jdumpA (JArr.cons v2 ys) ++ ']' :: rest =
            ',' :: ' ' :: (jdumpV v2 ++ (jdumpA ys ++ ']' :: rest)) := by
          show (',' :: ' ' :: jdumpV v2 ++ jdumpA ys) ++ ']' :: rest = _
          simp [List.cons_append, List.append_assoc]
        unfold parseElems
        rw [hpv, hre]
        dsimp only
        rw [skipWs_cons_not_ws _ _ (by decide)]
        dsimp only
        rw [if_pos rfl, parseElems_ws f ' ' _ (by decide),
          ihA v2 ys rest hnf2.1 hnf2.2 (by
            have : fuelA (.cons v2 ys) = 1 + max (fuelV v2) (fuelA ys) := rfl
            rw [this] at hfuel
            omega)]
        rfl
    · intro k v fs rest hnfv hnffs hfuel
      have hfv : fuelV v ≤ f := by omega
      have hq : escapeString k ++ ':' :: ' ' :: jdumpV v ++
          (jdumpO fs ++ '\x7d' :: rest) =
          '"' :: (escapeList k.data ++ ('"' :: (':' :: ' ' :: jdumpV v ++
            (jdumpO fs ++ '\x7d' :: rest)))) := by
        show ('"' :: escapeList k.data ++ ['"']) ++ _ ++ _ = _
        simp [List.cons_append, List.append_assoc]
      rw [hq]
      unfold parseMems
      rw [skipWs_cons_not_ws _ _ (by decide)]
      dsimp only
      rw [if_pos rfl,
        parseStrBody_escapeList k.data _ _ (by
          simp only [List.length_append, List.length_cons]
          omega)]
      dsimp only
      rw [List.cons_append, List.cons_append, skipWs_cons_not_ws _ _ (by decide)]
      dsimp only
      rw [if_pos rfl, parseV_ws f ' ' _ (by decide)]
      have hpv : parseV f (jdumpV v ++ (jdumpO fs ++ '\x7d' :: rest)) =
          some (v, jdumpO fs ++ '\x7d' :: rest) :=
        ihV v _ hnfv (by cases fs <;> rfl) hfv
      rw [hpv]
      dsimp only
      cases fs with
      | nil =>
        rfl
      | cons k2 v2 gs =>
        have hnf2 : noFloatV v2 = true ∧ noFloatO gs = true := by
          have : noFloatO (.cons k2 v2 gs) = (noFloatV v2 && noFloatO gs) := rfl
          rw [this] at hnffs
          exact Bool.and_eq_true_iff.mp hnffs
        have hro : jdumpO (JObj.cons k2 v2 gs) ++ '\x7d' :: rest =
            ',' :: ' ' :: (escapeString k2 ++ ':' :: ' ' :: jdumpV v2 ++
              (jdumpO gs ++ '\x7d' :: rest)) := by
          show (',' :: ' ' :: escapeString k2 ++ ':' :: ' ' :: jdumpV v2 ++ jdumpO gs)
            ++ '\x7d' :: rest = _
          simp [List.cons_append, List.append_assoc]
        rw [hro, skipWs_cons_not_ws _ _ (by decide)]
        dsimp only
        rw [if_pos rfl, parseMems_ws f ' ' _ (by decide),
          ihO k2 v2 gs rest hnf2.1 hnf2.2 (by
            have : fuelO (.cons k2 v2 gs) = 1 + max (fuelV v2) (fuelO gs) := rfl
            rw [this] at hfuel
            omega)]
        rfl

end RoundTripLemmas

/-- Top-level round trip of the json model: parsing a dumped value
recovers it (floats never occur in the repository's dumped payloads and
are excluded by `noFloatV`). -/
theorem jparse_jdumps (v : JValue) (h : noFloatV v = true) :
    jparse (jdumps v) = some v := by
  have hp := (parse_dump ((jdumpV v).length + 1)).1 v [] h rfl (fuelV_le v)
  rw [List.append_nil] at hp
  show (match parseV ((jdumpV v).length + 1) (jdumpV v) with
    | some (v, rest) => if skipWs rest = [] then some v else none
    | none => none) = some v
  rw [hp]
  rfl

/-- C2 (amended): decode is total and validates no header/subject
fields.  For every input it returns a parsed value or None without
raising; it returns the payload parsed for every well-formed JSON
document — whether or not the MSH header and PID subject fields are
present — and returns None (the reported failure) on non-JSON text such
as "not json". -/
theorem decode_wellformed_no_field_validation :
    (∀ v : JValue, noFloatV v = true →
      parse_hl7_message (jdumps v) = some v) ∧
    parse_hl7_message "not json" = none :=
  ⟨fun v h => jparse_jdumps v h, rfl⟩

/-- Witness for `decode_wellformed_no_field_validation` at the payload
"{}" (no MSH, no PID): decode succeeds. -/
theorem decode_wellformed_no_field_validation_witness :
    parse_hl7_message (jdumps (.jobj .nil)) = some (.jobj .nil) :=
  decode_wellformed_no_field_validation.1 (.jobj .nil) rfl

/-- C3: encode/decode round trip.  For every subject identity and every
randomness outcome of an encode call, decoding the encoded message
recovers the identical message value; its subject identity is the
encoded patient id, and its OBX kind-to-value mapping carries exactly
the three observation values formatted to one decimal place. -/
theorem encode_decode_roundtrip (pid : String) (d : GenDraws) :
    parse_hl7_message (generate_hl7_message pid d) =
      some (generate_patient_data pid d) ∧
    subjectIdOf (generate_patient_data pid d) = some (.jstr pid) ∧
    obxPairsOf (generate_patient_data pid d) =
      [("8867-4", format1 d.hr), ("85354-9", format1 d.bp),
       ("59408-5", format1 d.spo2)] := by
  refine ⟨?_, rfl, rfl⟩
  show jparse (jdumps (generate_patient_data pid d)) = _
  exact jparse_jdumps _ rfl
